import Mathlib

/-!
Shallow embedding of the cross-instance migration engine of
`gitlab-migrate` (Go), with theorems checking the specification's
claims about pagination, retry, name resolution, transfer execution,
record round-tripping and HTTP client construction.

The HTTP layer is abstracted as an oracle: a function from the request
parameters the code actually varies (`per_page`, `page`,
`include_subgroups`) to the server's response for that request.  A
response is either a failure (transport error, non-2xx status, or JSON
decode error -- the Go code collapses all three into the same early
return in every fetch function modelled here) or a decoded list of
records.
-/

namespace GitlabMigrate

/-- A project record as decoded from the API response (the Go code reads
`project["id"]` as a float64 converted to int64, and `project["name"]` as a
string). -/
structure Project where
  id : Int
  name : String
deriving DecidableEq

/-- The query parameters of a GET request for a project collection.
`fetchAllProjects` sends `?per_page=100&page=N`, `fetchGroupProjects`
sends `?per_page=100&page=N&include_subgroups=true`, and
`getProjectsForGroup` sends no query parameters at all. -/
structure Req where
  perPage : Option Nat
  page : Option Nat
  includeSubgroups : Bool
deriving DecidableEq

/-- A server's answer to one collection request: a failure (transport
error, non-OK status, or undecodable body) or the decoded records. -/
inductive PageResp (α : Type) where
  | fail : PageResp α
  | ok : List α → PageResp α
deriving DecidableEq

/-- The request built by the paginated fetch loops for a given page. -/
def mkReq (includeSubgroups : Bool) (page : Nat) : Req :=
  { perPage := some 100, page := some page, includeSubgroups := includeSubgroups }

/-- The pagination loop shared verbatim by `fetchAllProjects` (set.go)
and `fetchGroupProjects` (mirror.go): request the current page, return
the error on any failure, stop on an empty page, otherwise append the
records and advance the page by one.  `fuel` bounds the number of
iterations (the Go loop is unbounded); the result is the final record
list (`none` on error or fuel exhaustion) paired with the list of
requests issued, in order. -/
def fetchPagesFrom (server : Req → PageResp α) (includeSubgroups : Bool) :
    Nat → Nat → Option (List α) × List Req
  | 0, _ => (none, [])
  | fuel + 1, page =>
    match server (mkReq includeSubgroups page) with
    | PageResp.fail => (none, [mkReq includeSubgroups page])
    | PageResp.ok ps =>
      if ps.isEmpty then (some [], [mkReq includeSubgroups page])
      else
        let r := fetchPagesFrom server includeSubgroups fuel (page + 1)
        (r.1.map (fun rest => ps ++ rest), mkReq includeSubgroups page :: r.2)

/-- Model of `fetchAllProjects` (set.go): paginated fetch of the destination
group's projects, starting at page 1, `per_page=100`. -/
def fetchAllProjects (server : Req → PageResp α) (fuel : Nat) :
    Option (List α) × List Req :=
  fetchPagesFrom server false fuel 1

/-- Model of `fetchGroupProjects` (mirror.go): same loop with
`include_subgroups=true` in each request. -/
def fetchGroupProjects (server : Req → PageResp α) (fuel : Nat) :
    Option (List α) × List Req :=
  fetchPagesFrom server true fuel 1

/-- Model of `findProjectIDByExactName` (set.go): scan the project list in order
and return the id of the first project whose name equals the given name;
0 when none does. -/
def findProjectIDByExactName (projects : List Project) (projectName : String) : Int :=
  match projects with
  | [] => 0
  | p :: rest =>
    if projectName = p.name then p.id else findProjectIDByExactName rest projectName

/-! ## Retry-wrapped single-page fetch (`executeGitLabAPIRequest`, get.go) -/

/-- The `maxRetries` constant (get.go). -/
def maxRetries : Nat := 3

/-- The `retryDelay` constant (get.go), in seconds. -/
def retryDelaySeconds : Nat := 2

/-- What one attempt of `executeGitLabAPIRequest` runs into: a request
construction error, a transport error, a non-OK status, a JSON decode
error (each makes the loop continue to the next attempt), or a decoded
result. -/
inductive FetchOutcome (α : Type) where
  | reqErr
  | transportErr
  | badStatus
  | decodeErr
  | ok (v : α)
deriving DecidableEq

/-- Whether an attempt failed (anything but a decoded result). -/
def isFail : FetchOutcome α → Bool
  | FetchOutcome.ok _ => false
  | _ => true

/-- The retry loop of `executeGitLabAPIRequest` from attempt index
`retry`, with `fuel` attempts remaining: sleep `retryDelay` before every
attempt but the first, stop with the decoded result on success, fall
through to `nil` when the attempts are exhausted.  Returns the result
(`none` models the `nil` return) paired with the delay slept before each
attempt actually made, in order. -/
def executeAttemptsFrom (attempts : Nat → FetchOutcome α) : Nat → Nat → Option α × List Nat
  | 0, _ => (none, [])
  | fuel + 1, retry =>
    let delay := if 0 < retry then retryDelaySeconds else 0
    match attempts retry with
    | FetchOutcome.ok v => (some v, [delay])
    | _ =>
      let r := executeAttemptsFrom attempts fuel (retry + 1)
      (r.1, delay :: r.2)

/-- Model of `executeGitLabAPIRequest` (get.go): up to `maxRetries` attempts
starting at attempt 0. -/
def executeGitLabAPIRequest (attempts : Nat → FetchOutcome α) : Option α × List Nat :=
  executeAttemptsFrom attempts maxRetries 0

/-- Page contents of sizes 100, 100, 37, 0 for the concrete instance of
claim C1. -/
def c1pages : Nat → List Nat := fun p =>
  if p = 1 then List.range 100
  else if p = 2 then List.range 100
  else if p = 3 then List.range 37
  else []

/-- A server serving `c1pages` for every paginated request. -/
def c1server : Req → PageResp Nat := fun r =>
  match r.page with
  | some p => PageResp.ok (c1pages p)
  | none => PageResp.ok []

/-! ## Single unpaginated group listing (`getProjectsForGroup`, get.go) -/

/-- The one request `getProjectsForGroup` issues: no `per_page`, no
`page`, no `include_subgroups` -- the URL carries no query parameters. -/
def unpagedReq : Req := { perPage := none, page := none, includeSubgroups := false }

/-- Model of `getProjectsForGroup` (get.go), used by the recursive variable
migration to list the source group's projects: a single request with no
pagination parameters; any failure returns nil (`none`), a decoded
response is returned as-is.  The result is paired with the requests
issued. -/
def getProjectsForGroup (server : Req → PageResp α) : Option (List α) × List Req :=
  match server unpagedReq with
  | PageResp.fail => (none, [unpagedReq])
  | PageResp.ok ps => (some ps, [unpagedReq])

/-- Model of `getAllVariablesForGroupProjects` (get.go): list the group's
projects with `getProjectsForGroup` (a nil result from an error is
ranged over as an empty list), then fetch each listed project's
variables, producing entries of project id, project name and variable
list.  `varsOf` abstracts `getVariablesForProject`. -/
def getAllVariablesForGroupProjects {V : Type} (server : Req → PageResp Project)
    (varsOf : Int → List V) : List (Int × String × List V) :=
  (((getProjectsForGroup server).1).getD []).map (fun p => (p.id, p.name, varsOf p.id))

/-- A group of 101 projects for the concrete instance of claim C8:
pages of sizes 100 and 1 under `per_page=100`, page 3 empty. -/
def c8pages : Nat → List Project := fun p =>
  if p = 1 then (List.range 100).map (fun i => { id := (i : Int), name := "" })
  else if p = 2 then [{ id := 100, name := "" }]
  else []

/-- A server holding the 101 projects of `c8pages`: paginated requests
are answered from `c8pages`; a request without pagination parameters is
answered with the server's default first page of 20 records (the
GitLab-style default page size). -/
def c8server : Req → PageResp Project := fun r =>
  match r.page with
  | some p => PageResp.ok (c8pages p)
  | none => PageResp.ok ((List.range 20).map (fun i => { id := (i : Int), name := "" }))

/-! ## Single create request (`makeGitLabAPIRequest`, set.go) -/

/-- The HTTP-level result of one request: a transport failure, or a
response with a status code. -/
inductive HTTPResult where
  | transportErr
  | status (code : Nat)
deriving DecidableEq

/-- Model of `makeGitLabAPIRequest` (set.go): issue exactly one request (no
retry loop); a transport failure is an error, a response with
`StatusCode >= 400` is an error, and any other response is a success.
Result: whether the call returned without error, paired with the number
of HTTP attempts made (`attempts` is the would-be response of each
attempt; only attempt 0 is ever consulted). -/
def makeGitLabAPIRequest (attempts : Nat → HTTPResult) : Bool × Nat :=
  match attempts 0 with
  | HTTPResult.transportErr => (false, 1)
  | HTTPResult.status code => (decide (code < 400), 1)

/-- A 2xx (success-class) HTTP status. -/
def is2xx (code : Nat) : Prop := 200 ≤ code ∧ code ≤ 299

/-! ## Transfer executor (`createVariablesForProject` / `createVariablesForGroup`, set.go) -/

/-- The reported outcome for one variable record: marshalling failed,
the creation request failed, or the variable was created. -/
inductive VarOutcome where
  | marshalErr
  | createFailed
  | created
deriving DecidableEq

/-- One loop iteration of the transfer executor: marshal the record (an
error is reported and the loop continues with the next record), POST it
with `makeGitLabAPIRequest`, report the error or the success. -/
def varOutcome {V P : Type} (marshal : V → Option P) (respond : P → HTTPResult)
    (v : V) : VarOutcome :=
  match marshal v with
  | none => VarOutcome.marshalErr
  | some payload =>
    if (makeGitLabAPIRequest (fun _ => respond payload)).1 then VarOutcome.created
    else VarOutcome.createFailed

/-- Model of `createVariablesForProject` (set.go): one independent creation
request per record, in list order; every failure is reported for its
record and the loop always continues to the next record. -/
def createVariablesForProject {V P : Type} (marshal : V → Option P)
    (respond : P → HTTPResult) : List V → List VarOutcome
  | [] => []
  | v :: rest => varOutcome marshal respond v :: createVariablesForProject marshal respond rest

/-- Model of `createVariablesForGroup` (set.go): the same loop, against the
group's variables endpoint. -/
def createVariablesForGroup {V P : Type} (marshal : V → Option P)
    (respond : P → HTTPResult) : List V → List VarOutcome
  | [] => []
  | v :: rest => varOutcome marshal respond v :: createVariablesForGroup marshal respond rest

/-! ## Recursive group migration (`migrateVariablesCmd`, migrate.go) -/

/-- One source project's entry in the map built by
`getAllVariablesForGroupProjects`, as `migrateVariablesCmd` reads it
back: the `project_name` field (`none` models a missing or mistyped
name) and the `variables` field (`none` models a wrong-format variable
list). -/
structure SourceProjectData (V : Type) where
  projectName : Option String
  varRecords : Option (List V)
deriving DecidableEq

/-- The observable events of one recursive migration run: the two
fetch phases, one name resolution per named source entry, and one
variable-creation batch per resolved entry. -/
inductive MigEvent (V : Type) where
  | fetchSourceVars
  | fetchDestProjects
  | resolve (name : String)
  | createVars (destID : Int) (vars : List V)
deriving DecidableEq

/-- Whether an event is one of the two fetch phases. -/
def isFetchEvent {V : Type} : MigEvent V → Bool
  | MigEvent.fetchSourceVars => true
  | MigEvent.fetchDestProjects => true
  | _ => false

/-- Whether an event is a name resolution. -/
def isResolveEvent {V : Type} : MigEvent V → Bool
  | MigEvent.resolve _ => true
  | _ => false

/-- Whether an event is a variable-creation batch. -/
def isCreateEvent {V : Type} : MigEvent V → Bool
  | MigEvent.createVars _ _ => true
  | _ => false

/-- The events produced for one source map entry by the loop of
`migrateVariablesCmd`: an entry without a usable name is skipped; the
name is resolved against the destination listing; the sentinel id 0 is
a warning and a skip; an entry with a wrong-format variable list is
skipped after resolution; otherwise its variables are created on the
resolved destination project. -/
def migrateEntryEvents {V : Type} (destProjects : List Project)
    (entry : String × SourceProjectData V) : List (MigEvent V) :=
  match entry.2.projectName with
  | none => []
  | some name =>
    MigEvent.resolve name ::
      (if findProjectIDByExactName destProjects name = 0 then []
       else
         match entry.2.varRecords with
         | none => []
         | some vs => [MigEvent.createVars (findProjectIDByExactName destProjects name) vs])

/-- The whole recursive-migration event trace of `migrateVariablesCmd`:
fetch all source projects' variables, fetch the destination project
listing, then, entry by entry, resolve and immediately create. -/
def migrateRecursiveTrace {V : Type} (destProjects : List Project)
    (entries : List (String × SourceProjectData V)) : List (MigEvent V) :=
  MigEvent.fetchSourceVars :: MigEvent.fetchDestProjects ::
    entries.flatMap (migrateEntryEvents destProjects)

/-- Destination projects for the concrete instance of claim C7. -/
def c7destProjects : List Project := [{ id := 1, name := "a" }, { id := 2, name := "b" }]

/-- Two source entries, both with a destination counterpart, for the
concrete instance of claim C7. -/
def c7entries : List (String × SourceProjectData Nat) :=
  [("10", { projectName := some "a", varRecords := some [7] }),
   ("20", { projectName := some "b", varRecords := some [8] })]

/-- The concrete trace of claim C7. -/
def c7trace : List (MigEvent Nat) := migrateRecursiveTrace c7destProjects c7entries

/-! ## JSON round-trip of opaque variable records

A variable record on the wire is a JSON object: an ordered list of
fields, each a key paired with an (opaque) value.  `goUnmarshalObj`
models Go's `encoding/json` decoding of an object into a
`map[string]interface{}` (for each key the last value wins, keys become
unique); `goMarshalObj` models encoding such a map (fields are emitted
sorted by key).  The engine passes each decoded record through
unchanged between the fetch (`getVariablesForProject`, get.go) and the
replay (`createVariablesForProject`, set.go), so the record pipeline is
decode followed by encode. -/

/-- Go `json.Unmarshal` of an object into a map, as an association
list: keys become unique, the last value for a key wins. -/
def goUnmarshalObj {α : Type} : List (String × α) → List (String × α)
  | [] => []
  | (k, v) :: rest =>
    if ((goUnmarshalObj rest).lookup k).isSome then goUnmarshalObj rest
    else (k, v) :: goUnmarshalObj rest

/-- Key order used by Go `json.Marshal` on a map: fields sorted by key. -/
def keyLe {α : Type} (p q : String × α) : Prop := p.1 ≤ q.1

instance {α : Type} : DecidableRel (@keyLe α) :=
  fun p q => inferInstanceAs (Decidable (p.1 ≤ q.1))

/-- Go `json.Marshal` of a map: emit the fields sorted by key. -/
def goMarshalObj {α : Type} (m : List (String × α)) : List (String × α) :=
  List.insertionSort keyLe m

/-- The record pipeline of the migration engine: decode the fetched
record, pass it through untouched, re-encode it for the creation
request. -/
def pipelineVariableRecord {α : Type} (o : List (String × α)) : List (String × α) :=
  goMarshalObj (goUnmarshalObj o)

/-! ## HTTP client construction (utils, part_001) -/

/-- Model of `HTTPClientConfig` (utils): timeout, TLS-verification toggle and
connection-pool limits (durations in seconds). -/
structure HTTPClientConfig where
  timeoutSeconds : Nat
  skipTLSVerification : Bool
  maxIdleConns : Nat
  idleConnTimeoutSeconds : Nat
deriving DecidableEq

/-- Model of `NewDefaultConfig` (utils): 30s timeout, TLS verification ON
(`SkipTLSVerification = false`), 100 idle connections, 90s idle
timeout. -/
def NewDefaultConfig : HTTPClientConfig :=
  { timeoutSeconds := 30, skipTLSVerification := false,
    maxIdleConns := 100, idleConnTimeoutSeconds := 90 }

/-- The built `http.Client`: its transport's
`TLSClientConfig.InsecureSkipVerify` and pool settings. -/
structure HTTPClient where
  timeoutSeconds : Nat
  insecureSkipVerify : Bool
  maxIdleConns : Nat
  idleConnTimeoutSeconds : Nat
deriving DecidableEq

/-- Model of `CreateHTTPClient` (utils): build the client from the given config,
or from the defaults when none is given; `InsecureSkipVerify` is set to
the config's `SkipTLSVerification`. -/
def CreateHTTPClient (config : Option HTTPClientConfig) : HTTPClient :=
  let c := config.getD NewDefaultConfig
  { timeoutSeconds := c.timeoutSeconds, insecureSkipVerify := c.skipTLSVerification,
    maxIdleConns := c.maxIdleConns, idleConnTimeoutSeconds := c.idleConnTimeoutSeconds }

/-- The client config built at the call site in `getProjectsForGroup`
(get.go): the defaults with `SkipTLSVerification` overridden to true. -/
def getProjectsForGroupClientConfig : HTTPClientConfig :=
  { NewDefaultConfig with skipTLSVerification := true }

/-- The client config built at the call site in `getVariablesForGroup`
(get.go). -/
def getVariablesForGroupClientConfig : HTTPClientConfig :=
  { NewDefaultConfig with skipTLSVerification := true }

/-- The client config built at the call site in `getVariablesForProject`
(get.go). -/
def getVariablesForProjectClientConfig : HTTPClientConfig :=
  { NewDefaultConfig with skipTLSVerification := true }

/-- The client config built at the call site in `fetchAllProjects`
(set.go). -/
def fetchAllProjectsClientConfig : HTTPClientConfig :=
  { NewDefaultConfig with skipTLSVerification := true }

/-- The client config built at the call site in `makeGitLabAPIRequest`
(set.go). -/
def makeGitLabAPIRequestClientConfig : HTTPClientConfig :=
  { NewDefaultConfig with skipTLSVerification := true }

/-- The pagination loop, run from any start page: when the server
serves `pageList p` for page `p`, pages `start .. N-1` are non-empty and
page `N` is empty, the loop returns the concatenation of pages
`start .. N-1` and requests exactly pages `start .. N`. -/
lemma fetchPagesFrom_pagination {α : Type} (server : Req → PageResp α)
    (pageList : Nat → List α) (incSub : Bool) (N : Nat)
    (hserv : ∀ p, server (mkReq incSub p) = PageResp.ok (pageList p))
    (hne : ∀ p, 1 ≤ p → p < N → pageList p ≠ [])
    (hemp : pageList N = []) :
    ∀ fuel start, 1 ≤ start → start ≤ N → N - start < fuel →
      fetchPagesFrom server incSub fuel start =
        (some ((List.range' start (N - start)).flatMap pageList),
         (List.range' start (N - start + 1)).map (mkReq incSub)) := by
  intro fuel
  induction fuel with
  | zero => intro start _ _ h3; omega
  | succ fuel ih =>
    intro start h1 h2 h3
    rcases eq_or_lt_of_le h2 with heq | hlt
    · subst heq
      simp [fetchPagesFrom, hserv, hemp, List.range']
    · have hcons : pageList start ≠ [] := hne start h1 hlt
      have hempty : (pageList start).isEmpty = false := by
        cases h : pageList start with
        | nil => exact absurd h hcons
        | cons a l => rfl
      have hrec := ih (start + 1) (by omega) (by omega) (by omega)
      simp only [fetchPagesFrom, hserv, hempty, Bool.false_eq_true, if_false]
      rw [hrec]
      have h4 : N - start = (N - (start + 1)) + 1 := by omega
      rw [h4]
      have hr : ∀ s n, List.range' s (n + 1) = s :: List.range' (s + 1) n :=
        fun s n => rfl
      rw [hr start (N - (start + 1)), hr start (N - (start + 1) + 1)]
      simp [List.flatMap_cons]

/-- Claim C1: the paginated fetch (`fetchAllProjects` / `fetchGroupProjects`)
requests `per_page=100` pages starting at page 1, appends each non-empty
page's records in order, advances the page by 1, and stops exactly at the
first empty page: when pages `1 .. N-1` are non-empty and page `N` is
empty, the result is the in-order concatenation of pages `1 .. N-1` and
the requests issued are exactly pages `1 .. N` (no further request). -/
theorem fetchAll_pagination_spec {α : Type} (server : Req → PageResp α)
    (pageList : Nat → List α) (N fuel : Nat)
    (hserv : ∀ p incSub, server (mkReq incSub p) = PageResp.ok (pageList p))
    (hN : 1 ≤ N) (hfuel : N ≤ fuel)
    (hne : ∀ p, 1 ≤ p → p < N → pageList p ≠ [])
    (hemp : pageList N = []) :
    fetchAllProjects server fuel =
      (some ((List.range' 1 (N - 1)).flatMap pageList),
       (List.range' 1 N).map (mkReq false)) ∧
    fetchGroupProjects server fuel =
      (some ((List.range' 1 (N - 1)).flatMap pageList),
       (List.range' 1 N).map (mkReq true)) := by
  have h1 := fetchPagesFrom_pagination server pageList false N (fun p => hserv p false)
    hne hemp fuel 1 le_rfl hN (by omega)
  have h2 := fetchPagesFrom_pagination server pageList true N (fun p => hserv p true)
    hne hemp fuel 1 le_rfl hN (by omega)
  have hN' : N - 1 + 1 = N := by omega
  rw [hN'] at h1 h2
  exact ⟨h1, h2⟩

set_option maxRecDepth 4096 in
/-- Witness for claim C1: for pages of sizes [100, 100, 37, 0] the fetch
returns exactly 237 records after exactly 4 requests (pages 1-4) and
issues no further request. -/
theorem fetchAll_pagination_spec_witness :
    fetchAllProjects c1server 5 =
      (some ((List.range' 1 3).flatMap c1pages), (List.range' 1 4).map (mkReq false)) ∧
    ((List.range' 1 3).flatMap c1pages).length = 237 ∧
    (List.range' 1 4).map (mkReq false) =
      [mkReq false 1, mkReq false 2, mkReq false 3, mkReq false 4] := by
  refine ⟨?_, by decide, by decide⟩
  exact (fetchAll_pagination_spec c1server c1pages 4 5 (fun p i => rfl) (by omega) (by omega)
    (by intro p hp1 hp2; interval_cases p <;> decide) (by decide)).1

/-- Claim C2: if the first two attempts fail and the third succeeds, the
decoded result of the third attempt is returned after exactly three
attempts; if all three attempts fail, `nil` is returned after exactly
three attempts (no fourth attempt is made); a fixed 2-second delay
precedes every attempt except the first. -/
theorem executeGitLabAPIRequest_retry {α : Type} (attempts : Nat → FetchOutcome α) :
    (∀ v, isFail (attempts 0) = true → isFail (attempts 1) = true →
      attempts 2 = FetchOutcome.ok v →
      executeGitLabAPIRequest attempts =
        (some v, [0, retryDelaySeconds, retryDelaySeconds])) ∧
    (isFail (attempts 0) = true → isFail (attempts 1) = true →
      isFail (attempts 2) = true →
      executeGitLabAPIRequest attempts =
        (none, [0, retryDelaySeconds, retryDelaySeconds])) := by
  constructor
  · intro v h0 h1 h2
    cases a0 : attempts 0 <;> rw [a0] at h0 <;> simp [isFail] at h0
    all_goals cases a1 : attempts 1 <;> rw [a1] at h1 <;> simp [isFail] at h1
    all_goals
      simp [executeGitLabAPIRequest, maxRetries, executeAttemptsFrom, a0, a1, h2]
  · intro h0 h1 h2
    cases a0 : attempts 0 <;> rw [a0] at h0 <;> simp [isFail] at h0
    all_goals cases a1 : attempts 1 <;> rw [a1] at h1 <;> simp [isFail] at h1
    all_goals cases a2 : attempts 2 <;> rw [a2] at h2 <;> simp [isFail] at h2
    all_goals
      simp [executeGitLabAPIRequest, maxRetries, executeAttemptsFrom, a0, a1, a2]

/-! ## Exact-name resolution (`findProjectIDByExactName`, set.go) -/

/-- Lemma: `findProjectIDByExactName` returns the id of the first project, in
list order, whose name is exactly the source name. -/
lemma findProjectIDByExactName_first (projects : List Project) (name : String) :
    ∀ i : Fin projects.length,
      (projects.get i).name = name →
      (∀ j : Fin projects.length, (j : Nat) < (i : Nat) → (projects.get j).name ≠ name) →
      findProjectIDByExactName projects name = (projects.get i).id := by
  induction projects with
  | nil => intro i; exact absurd i.isLt (by simp)
  | cons p rest ih =>
    intro i hname hfirst
    rcases i with ⟨iv, hiv⟩
    cases iv with
    | zero =>
      simp only [List.get] at hname ⊢
      simp only [findProjectIDByExactName]
      rw [if_pos hname.symm]
    | succ n =>
      have hp : name ≠ p.name := by
        have h0 := hfirst ⟨0, by omega⟩ (by simp)
        simp only [List.get] at h0
        exact fun hh => h0 hh.symm
      simp only [findProjectIDByExactName]
      rw [if_neg hp]
      have hn : n < rest.length := by simpa using hiv
      have hres := ih ⟨n, hn⟩ (by simpa using hname) ?_
      · simpa using hres
      · intro j hj
        have := hfirst ⟨(j : Nat) + 1, by simp only [List.length_cons]; omega⟩
          (by simpa using hj)
        simpa using this

/-- If no project's name equals the source name, the sentinel 0 is
returned. -/
lemma findProjectIDByExactName_miss (projects : List Project) (name : String)
    (h : ∀ p ∈ projects, p.name ≠ name) :
    findProjectIDByExactName projects name = 0 := by
  induction projects with
  | nil => rfl
  | cons p rest ih =>
    have hp : p.name ≠ name := h p (List.mem_cons_self p rest)
    simp only [findProjectIDByExactName]
    rw [if_neg (fun hh => hp hh.symm)]
    exact ih (fun q hq => h q (List.mem_cons_of_mem p hq))

/-- Claim C3: resolution iterates the destination collection in order and
returns the id of the first record whose name is byte-for-byte equal to
the source name, and the sentinel 0 when no record's name is equal;
given destination projects named ["api", "api-v2"], resolving "api"
returns the id of the record named exactly "api" (never "api-v2"), and
matching is case-sensitive. -/
theorem findProjectIDByExactName_spec (projects : List Project) (name : String) :
    ((∀ p ∈ projects, p.name ≠ name) → findProjectIDByExactName projects name = 0) ∧
    (∀ i : Fin projects.length,
      (projects.get i).name = name →
      (∀ j : Fin projects.length, (j : Nat) < (i : Nat) → (projects.get j).name ≠ name) →
      findProjectIDByExactName projects name = (projects.get i).id) ∧
    findProjectIDByExactName
      [{ id := 1, name := "api" }, { id := 2, name := "api-v2" }] "api" = 1 ∧
    findProjectIDByExactName [{ id := 7, name := "API" }] "api" = 0 :=
  ⟨findProjectIDByExactName_miss projects name,
   findProjectIDByExactName_first projects name,
   by decide, by decide⟩


/-! ## Claims C5 and C4 -/

/-- The project transfer executor maps the loop body over the records. -/
lemma createVariablesForProject_append {V P : Type} (marshal : V → Option P)
    (respond : P → HTTPResult) (l1 l2 : List V) :
    createVariablesForProject marshal respond (l1 ++ l2) =
      createVariablesForProject marshal respond l1 ++
        createVariablesForProject marshal respond l2 := by
  induction l1 with
  | nil => rfl
  | cons v rest ih => simp [createVariablesForProject, ih]

/-- The group transfer executor maps the loop body over the records. -/
lemma createVariablesForGroup_append {V P : Type} (marshal : V → Option P)
    (respond : P → HTTPResult) (l1 l2 : List V) :
    createVariablesForGroup marshal respond (l1 ++ l2) =
      createVariablesForGroup marshal respond l1 ++
        createVariablesForGroup marshal respond l2 := by
  induction l1 with
  | nil => rfl
  | cons v rest ih => simp [createVariablesForGroup, ih]

/-- One outcome is reported per record. -/
lemma createVariablesForProject_length {V P : Type} (marshal : V → Option P)
    (respond : P → HTTPResult) (l : List V) :
    (createVariablesForProject marshal respond l).length = l.length := by
  induction l with
  | nil => rfl
  | cons v rest ih => simp [createVariablesForProject, ih]

/-- Claim C5: every record of the ordered list is submitted as an
independent creation request; when record `v` fails (marshal error or
error status), its failure is reported in its position and every record
before and after it is still attempted with unchanged outcome -- there
is no abort and no rollback; the same holds for the group executor; one
outcome is reported per record. -/
theorem createVariables_partial_failure {V P : Type} (marshal : V → Option P)
    (respond : P → HTTPResult) (pre post : List V) (v : V)
    (hfail : varOutcome marshal respond v ≠ VarOutcome.created) :
    createVariablesForProject marshal respond (pre ++ v :: post) =
      createVariablesForProject marshal respond pre ++
        varOutcome marshal respond v :: createVariablesForProject marshal respond post ∧
    createVariablesForGroup marshal respond (pre ++ v :: post) =
      createVariablesForGroup marshal respond pre ++
        varOutcome marshal respond v :: createVariablesForGroup marshal respond post ∧
    (createVariablesForProject marshal respond (pre ++ v :: post)).length =
      pre.length + 1 + post.length ∧
    (createVariablesForProject marshal respond (pre ++ v :: post))[pre.length]? ≠
      some VarOutcome.created := by
  have hsplit : createVariablesForProject marshal respond (pre ++ v :: post) =
      createVariablesForProject marshal respond pre ++
        varOutcome marshal respond v :: createVariablesForProject marshal respond post := by
    rw [createVariablesForProject_append]
    rfl
  have hlen := createVariablesForProject_length marshal respond pre
  refine ⟨hsplit, ?_, ?_, ?_⟩
  · rw [createVariablesForGroup_append]
    rfl
  · rw [createVariablesForProject_length]
    simp
    omega
  · rw [hsplit, List.getElem?_append_right (le_of_eq hlen), hlen]
    simpa using hfail

/-- Witness for claim C5: five records where record 3's creation
returns a 422 -- records 1, 2, 4, 5 are still attempted and reported as
created; record 3 is reported as failed. -/
theorem createVariables_partial_failure_witness :
    createVariablesForProject (fun v : Nat => some v)
      (fun p => if p = 3 then HTTPResult.status 422 else HTTPResult.status 201)
      [1, 2, 3, 4, 5] =
      [VarOutcome.created, VarOutcome.created, VarOutcome.createFailed,
       VarOutcome.created, VarOutcome.created] := by
  have h := (createVariables_partial_failure (fun v : Nat => some v)
    (fun p => if p = 3 then HTTPResult.status 422 else HTTPResult.status 201)
    [1, 2] [4, 5] 3 (by decide)).1
  exact h.trans (by decide)

/-- Claim C4: in recursive group migration, a source entry whose name
resolves to the sentinel 0 contributes exactly its resolution event --
no creation request for its variables -- and the run proceeds to every
remaining entry unchanged: the trace of `pre ++ entry :: post` is the
two fetches, the events of `pre`, the lone resolution warning, and the
events of `post`. -/
theorem migrate_unmatched_skip {V : Type} (destProjects : List Project)
    (entry : String × SourceProjectData V) (name : String)
    (hname : entry.2.projectName = some name)
    (hmiss : findProjectIDByExactName destProjects name = 0) :
    migrateEntryEvents destProjects entry = [MigEvent.resolve name] ∧
    ∀ pre post,
      migrateRecursiveTrace destProjects (pre ++ entry :: post) =
        MigEvent.fetchSourceVars :: MigEvent.fetchDestProjects ::
          (pre.flatMap (migrateEntryEvents destProjects) ++
            MigEvent.resolve name ::
              post.flatMap (migrateEntryEvents destProjects)) := by
  have h1 : migrateEntryEvents destProjects entry = [MigEvent.resolve name] := by
    simp [migrateEntryEvents, hname, hmiss]
  refine ⟨h1, fun pre post => ?_⟩
  simp [migrateRecursiveTrace, List.flatMap_append, List.flatMap_cons, h1]

/-- Witness for claim C4: destination has only project "a"; of three
source entries the middle one ("b") has no counterpart; it produces its
resolution warning and no creation, while both "a" entries before and
after it are still migrated. -/
theorem migrate_unmatched_skip_witness :
    migrateRecursiveTrace [{ id := 1, name := "a" }]
      [("4", { projectName := some "a", varRecords := some [9] }),
       ("5", { projectName := some "b", varRecords := some [3] }),
       ("6", { projectName := some "a", varRecords := some [7] })] =
      [MigEvent.fetchSourceVars, MigEvent.fetchDestProjects,
       MigEvent.resolve "a", MigEvent.createVars 1 [9],
       MigEvent.resolve "b",
       MigEvent.resolve "a", MigEvent.createVars 1 [7]] := by
  have h := (migrate_unmatched_skip [{ id := 1, name := "a" }]
    ("5", { projectName := some "b", varRecords := some [3] }) "b" rfl (by decide)).2
    [("4", { projectName := some "a", varRecords := some [9] })]
    [("6", { projectName := some "a", varRecords := some [7] })]
  exact h.trans (by decide)

/-! ## Claim C7: resolution is interleaved with writes -/

/-- Counterexample to claim C7 as stated: with two matched source
entries, the creation for the first entry (trace index 3) is issued
before the second entry's destination counterpart is resolved (trace
index 4), so the transfer plan is not built entirely before the first
write; the claimed property "every resolution precedes every creation"
is false on this input. -/
theorem migrate_plan_counterexample :
    isCreateEvent (c7trace.get ⟨3, by decide⟩) = true ∧
    isResolveEvent (c7trace.get ⟨4, by decide⟩) = true ∧
    ¬ (∀ i j : Fin c7trace.length,
        isResolveEvent (c7trace.get i) = true → isCreateEvent (c7trace.get j) = true →
        (i : Nat) < (j : Nat)) := by
  refine ⟨by decide, by decide, fun h => ?_⟩
  have := h ⟨4, by decide⟩ ⟨3, by decide⟩ (by decide) (by decide)
  exact absurd this (by decide)

/-- Claim C7 (amended): the data the plan is built from is fetched
entirely before any write -- the trace starts with the source-variables
fetch and the destination-listing fetch and no fetch event occurs among
the per-entry events -- and every creation event targets the non-zero
destination id resolved from some source entry's name, carrying that
entry's variables verbatim; but each entry is resolved immediately
before its own write, so a later entry's resolution can follow an
earlier entry's creation (the full source-to-destination mapping is not
materialised before the first write). -/
theorem migrate_trace_phases {V : Type} (destProjects : List Project)
    (entries : List (String × SourceProjectData V)) :
    migrateRecursiveTrace destProjects entries =
      MigEvent.fetchSourceVars :: MigEvent.fetchDestProjects ::
        entries.flatMap (migrateEntryEvents destProjects) ∧
    (∀ ev ∈ entries.flatMap (migrateEntryEvents destProjects),
      isFetchEvent ev = false) ∧
    (∀ (destID : Int) (vs : List V),
      MigEvent.createVars destID vs ∈ entries.flatMap (migrateEntryEvents destProjects) →
      destID ≠ 0 ∧
        ∃ pid pd, (pid, pd) ∈ entries ∧
          ∃ nm, pd.projectName = some nm ∧
            findProjectIDByExactName destProjects nm = destID ∧
            pd.varRecords = some vs) := by
  refine ⟨rfl, ?_, ?_⟩
  · intro ev hev
    rcases List.mem_flatMap.1 hev with ⟨e, _, hev2⟩
    rcases e with ⟨pid, pd⟩
    rcases hpn : pd.projectName with _ | nm
    · simp [migrateEntryEvents, hpn] at hev2
    · by_cases hfind : findProjectIDByExactName destProjects nm = 0
      · simp [migrateEntryEvents, hpn, hfind] at hev2
        simp [hev2, isFetchEvent]
      · rcases hvars : pd.varRecords with _ | vs
        · simp [migrateEntryEvents, hpn, hfind, hvars] at hev2
          simp [hev2, isFetchEvent]
        · simp [migrateEntryEvents, hpn, hfind, hvars] at hev2
          rcases hev2 with rfl | rfl <;> simp [isFetchEvent]
  · intro destID vs hev
    rcases List.mem_flatMap.1 hev with ⟨e, he, hev2⟩
    rcases e with ⟨pid, pd⟩
    rcases hpn : pd.projectName with _ | nm
    · simp [migrateEntryEvents, hpn] at hev2
    · by_cases hfind : findProjectIDByExactName destProjects nm = 0
      · simp [migrateEntryEvents, hpn, hfind] at hev2
      · rcases hvars : pd.varRecords with _ | vs2
        · simp [migrateEntryEvents, hpn, hfind, hvars] at hev2
        · simp [migrateEntryEvents, hpn, hfind, hvars] at hev2
          rcases hev2 with ⟨hid, hvs⟩
          subst hid
          subst hvs
          exact ⟨hfind, pid, pd, he, nm, hpn, rfl, hvars⟩

/-! ## Claim C8: the recursive-mode source listing does not paginate -/

set_option maxRecDepth 8192 in
/-- Counterexample to claim C8 as stated: with a source group of 101
projects (two non-empty pages under `per_page=100`), the recursive-mode
listing `getProjectsForGroup` issues exactly one request carrying no
pagination parameters, returns only the server's single default
response of 20 records, and differs from the page-until-empty
enumeration that `fetchAllProjects` performs on the very same server;
per-project variables are then fetched for 20 projects, not 101. -/
theorem getProjectsForGroup_counterexample :
    (getProjectsForGroup c8server).2 = [unpagedReq] ∧
    unpagedReq.perPage = none ∧ unpagedReq.page = none ∧
    (fetchAllProjects c8server 4).1 = some (c8pages 1 ++ c8pages 2) ∧
    (c8pages 1 ++ c8pages 2).length = 101 ∧
    (getAllVariablesForGroupProjects c8server (fun _ => ([] : List Nat))).length = 20 ∧
    (getProjectsForGroup c8server).1 ≠ (fetchAllProjects c8server 4).1 :=
  ⟨by decide, rfl, rfl, by decide, by decide, by decide, by decide⟩

/-- Claim C8 (amended): in recursive group mode the source-group
listing (`getProjectsForGroup`) issues exactly one request with no
pagination parameters and returns exactly that single response's
records (nil on any failure); the page-until-empty rule is used only by
`fetchAllProjects` / `fetchGroupProjects`, so a source group with more
than one server-default page of projects is not guaranteed to be fully
listed before per-project variables are fetched. -/
theorem getProjectsForGroup_single_request {α : Type} (server : Req → PageResp α) :
    (getProjectsForGroup server).2 = [unpagedReq] ∧
    unpagedReq.perPage = none ∧ unpagedReq.page = none ∧
    (∀ ps, server unpagedReq = PageResp.ok ps → (getProjectsForGroup server).1 = some ps) ∧
    (server unpagedReq = PageResp.fail → (getProjectsForGroup server).1 = none) := by
  have h1 : (getProjectsForGroup server).2 = [unpagedReq] := by
    cases hs : server unpagedReq <;> simp [getProjectsForGroup, hs]
  have h2 : ∀ ps, server unpagedReq = PageResp.ok ps →
      (getProjectsForGroup server).1 = some ps := by
    intro ps hs
    simp [getProjectsForGroup, hs]
  have h3 : server unpagedReq = PageResp.fail → (getProjectsForGroup server).1 = none := by
    intro hs
    simp [getProjectsForGroup, hs]
  exact ⟨h1, rfl, rfl, h2, h3⟩

/-! ## Claim C9: only status >= 400 is an error for a create request -/

/-- Counterexample to claim C9 as stated: a 304 response is not a 2xx
status, yet `makeGitLabAPIRequest` reports success -- the code only
treats `StatusCode >= 400` as an error, so "succeeds iff 2xx" is false. -/
theorem makeGitLabAPIRequest_counterexample :
    (makeGitLabAPIRequest (fun _ => HTTPResult.status 304)).1 = true ∧ ¬ is2xx 304 :=
  ⟨rfl, fun h => absurd h.2 (by omega)⟩

/-- Claim C9 (amended): a single variable-creation request makes
exactly one HTTP attempt (no retry), and an error status causes an
immediate error: the request succeeds iff the transport succeeds and
the response status is < 400 (1xx-3xx responses count as success, not
only 2xx). -/
theorem makeGitLabAPIRequest_status_spec (attempts : Nat → HTTPResult) :
    (makeGitLabAPIRequest attempts).2 = 1 ∧
    ((makeGitLabAPIRequest attempts).1 = true ↔
      ∃ code, attempts 0 = HTTPResult.status code ∧ code < 400) := by
  cases h0 : attempts 0 with
  | transportErr =>
    refine ⟨by simp [makeGitLabAPIRequest, h0], ?_⟩
    simp [makeGitLabAPIRequest, h0]
  | status code =>
    refine ⟨by simp [makeGitLabAPIRequest, h0], ?_⟩
    simp [makeGitLabAPIRequest, h0]

/-! ## Claim C6: round-trip of opaque variable records -/

/-- A key absent from an association list looks up to nothing. -/
lemma lookup_eq_none_of_not_mem {α : Type} (l : List (String × α)) (k : String)
    (h : k ∉ l.map Prod.fst) : l.lookup k = none := by
  induction l with
  | nil => rfl
  | cons p rest ih =>
    rcases p with ⟨kp, v⟩
    simp only [List.map_cons, List.mem_cons] at h
    push_neg at h
    have hb : (k == kp) = false := beq_eq_false_iff_ne.mpr h.1
    rw [List.lookup_cons, hb]
    exact ih h.2

/-- A successful lookup's key is among the keys. -/
lemma mem_keys_of_lookup_isSome {α : Type} (l : List (String × α)) (k : String)
    (h : (l.lookup k).isSome) : k ∈ l.map Prod.fst := by
  by_contra hk
  rw [lookup_eq_none_of_not_mem l k hk] at h
  exact Bool.noConfusion h

/-- A present key looks up to something. -/
lemma lookup_isSome_of_mem_keys {α : Type} (l : List (String × α)) (k : String)
    (h : k ∈ l.map Prod.fst) : (l.lookup k).isSome := by
  induction l with
  | nil => simp at h
  | cons p rest ih =>
    rcases p with ⟨kp, v⟩
    by_cases hk : k = kp
    · subst hk
      simp [List.lookup_cons]
    · have hb : (k == kp) = false := beq_eq_false_iff_ne.mpr hk
      rw [List.lookup_cons, hb]
      simp only [List.map_cons, List.mem_cons] at h
      exact ih (h.resolve_left hk)

/-- Decoding keeps exactly the source object's key set. -/
lemma goUnmarshalObj_mem_keys {α : Type} (o : List (String × α)) (k : String) :
    k ∈ (goUnmarshalObj o).map Prod.fst ↔ k ∈ o.map Prod.fst := by
  induction o with
  | nil => simp [goUnmarshalObj]
  | cons p rest ih =>
    rcases p with ⟨kp, v⟩
    simp only [goUnmarshalObj]
    by_cases hl : ((goUnmarshalObj rest).lookup kp).isSome
    · rw [if_pos hl]
      simp only [List.map_cons, List.mem_cons]
      constructor
      · intro hm
        exact Or.inr (ih.1 hm)
      · rintro (rfl | hm)
        · exact mem_keys_of_lookup_isSome _ _ hl
        · exact ih.2 hm
    · rw [if_neg hl]
      simp only [List.map_cons, List.mem_cons]
      exact or_congr Iff.rfl ih

/-- Decoding produces an object with pairwise distinct keys. -/
lemma goUnmarshalObj_keys_nodup {α : Type} (o : List (String × α)) :
    ((goUnmarshalObj o).map Prod.fst).Nodup := by
  induction o with
  | nil => simp [goUnmarshalObj]
  | cons p rest ih =>
    rcases p with ⟨kp, v⟩
    simp only [goUnmarshalObj]
    by_cases hl : ((goUnmarshalObj rest).lookup kp).isSome
    · rw [if_pos hl]
      exact ih
    · rw [if_neg hl]
      simp only [List.map_cons, List.nodup_cons]
      refine ⟨fun hm => hl (lookup_isSome_of_mem_keys _ _ hm), ih⟩

/-- On an object with pairwise distinct keys, decoding is the
identity. -/
lemma goUnmarshalObj_eq_self_of_nodup {α : Type} (o : List (String × α))
    (h : (o.map Prod.fst).Nodup) : goUnmarshalObj o = o := by
  induction o with
  | nil => rfl
  | cons p rest ih =>
    rcases p with ⟨kp, v⟩
    simp only [List.map_cons, List.nodup_cons] at h
    have hrest := ih h.2
    have hk : (rest.lookup kp).isSome = false := by
      rw [lookup_eq_none_of_not_mem rest kp h.1]
      rfl
    simp only [goUnmarshalObj, hrest, hk, Bool.false_eq_true, if_false]

/-- Inserting a pair whose key is fresh does not disturb lookups
beyond prepending the pair. -/
lemma lookup_orderedInsert {α : Type} (p : String × α) (l : List (String × α))
    (hp : p.1 ∉ l.map Prod.fst) (k : String) :
    (List.orderedInsert keyLe p l).lookup k = ((p :: l).lookup k) := by
  induction l with
  | nil => rfl
  | cons q rest ih =>
    rcases p with ⟨kp, vp⟩
    rcases q with ⟨kq, vq⟩
    simp only [List.map_cons, List.mem_cons] at hp
    push_neg at hp
    simp only [List.orderedInsert]
    by_cases hle : keyLe (kp, vp) (kq, vq)
    · rw [if_pos hle]
    · rw [if_neg hle]
      by_cases hkq : k = kq
      · subst hkq
        have hbp : (k == kp) = false := beq_eq_false_iff_ne.mpr (fun hh => hp.1 hh.symm)
        simp [List.lookup_cons, hbp]
      · have hbq : (k == kq) = false := beq_eq_false_iff_ne.mpr hkq
        rw [List.lookup_cons, hbq, ih hp.2]
        cases hbp : k == kp <;>
          simp [List.lookup_cons, hbp, hbq]

/-- Sorting an object with pairwise distinct keys preserves every
lookup. -/
lemma lookup_goMarshalObj {α : Type} (m : List (String × α))
    (h : (m.map Prod.fst).Nodup) (k : String) :
    (goMarshalObj m).lookup k = m.lookup k := by
  induction m with
  | nil => rfl
  | cons p rest ih =>
    rcases p with ⟨kp, vp⟩
    simp only [List.map_cons, List.nodup_cons] at h
    have hperm := (List.perm_insertionSort keyLe rest).map Prod.fst
    have hkeys : kp ∉ (List.insertionSort keyLe rest).map Prod.fst := by
      intro hm
      exact h.1 (hperm.mem_iff.mp hm)
    show (List.orderedInsert keyLe (kp, vp) (List.insertionSort keyLe rest)).lookup k = _
    rw [lookup_orderedInsert (kp, vp) _ hkeys k]
    cases hb : k == kp <;> rw [List.lookup_cons, List.lookup_cons, hb]
    exact ih h.2

/-- Claim C6: the fetch-then-create pipeline decodes a variable record
and re-encodes it verbatim: the replayed record has exactly the same
field set as the fetched one (no field added, removed, or renamed), and
on a record without duplicate keys every field's value is unchanged --
the engine never alters an individual field. -/
theorem variableRecord_roundtrip {α : Type} (o : List (String × α)) :
    (∀ k, k ∈ (pipelineVariableRecord o).map Prod.fst ↔ k ∈ o.map Prod.fst) ∧
    ((o.map Prod.fst).Nodup →
      ∀ k, (pipelineVariableRecord o).lookup k = o.lookup k) := by
  constructor
  · intro k
    have hperm := (List.perm_insertionSort keyLe (goUnmarshalObj o)).map Prod.fst
    exact hperm.mem_iff.trans (goUnmarshalObj_mem_keys o k)
  · intro hnd k
    rw [pipelineVariableRecord, lookup_goMarshalObj _ (goUnmarshalObj_keys_nodup o) k,
        goUnmarshalObj_eq_self_of_nodup o hnd]

/-! ## Claim C10: TLS verification disabled at every migration call site -/

/-- Claim C10: the default HTTP client configuration has TLS
verification on (`SkipTLSVerification = false`), and every client built
by the variable/project fetch and variable-creation operations of the
migration workflows (`getProjectsForGroup`, `getVariablesForGroup`,
`getVariablesForProject`, `fetchAllProjects`, `makeGitLabAPIRequest`)
is built from that default overridden to `SkipTLSVerification = true`,
so none of these clients verifies the server certificate. -/
theorem migrationClients_skip_tls :
    NewDefaultConfig.skipTLSVerification = false ∧
    (CreateHTTPClient (some getProjectsForGroupClientConfig)).insecureSkipVerify = true ∧
    (CreateHTTPClient (some getVariablesForGroupClientConfig)).insecureSkipVerify = true ∧
    (CreateHTTPClient (some getVariablesForProjectClientConfig)).insecureSkipVerify = true ∧
    (CreateHTTPClient (some fetchAllProjectsClientConfig)).insecureSkipVerify = true ∧
    (CreateHTTPClient (some makeGitLabAPIRequestClientConfig)).insecureSkipVerify = true :=
  ⟨rfl, rfl, rfl, rfl, rfl, rfl⟩

end GitlabMigrate
